import Mathlib

set_option maxRecDepth 4000

/-!
# Verification of the xpp2graph ingestion and graph-synchronization engine

Shallow embedding of the repository's core (`src/ir/models.py`,
`src/pipeline/parser.py`, `src/graph/schema.py`, `src/graph/loader.py`)
together with proofs settling the frozen claims about it.

Conventions of the embedding:
* Python strings are Lean `String`s; `str.strip()` is `pyStrip`
  (ASCII whitespace, which covers every input the claims exercise).
* Python truthiness of a string is the `≠ ""` test; `a or b` on
  optional strings is `pyOr`.
* Python dicts are association lists with insertion order and
  last-write-wins update (`dictInsert`); sets are lists used only
  through membership.
* Fallible code returns `Except String`; an exception raised by the
  Python code is an `Except.error`.
-/

namespace XppGraph

/-- Python `a or b` on optional strings: `a` unless it is `None` or `""`. -/
def pyOr (a b : Option String) : Option String :=
  match a with
  | some s => if s = "" then b else some s
  | none => b

/-- Python dict assignment `d[k] = v`: replace in place if the key exists
(the key keeps its insertion position), else append. -/
def dictInsert {α : Type} (d : List (String × α)) (k : String) (v : α) :
    List (String × α) :=
  match d with
  | [] => [(k, v)]
  | (k', v') :: rest =>
      if k' = k then (k, v) :: rest else (k', v') :: dictInsert rest k v

/-- Python dict lookup `d.get(k)`. -/
def dictGet {α : Type} (d : List (String × α)) (k : String) : Option α :=
  match d with
  | [] => none
  | (k', v') :: rest => if k' = k then some v' else dictGet rest k

/-- Python's whitespace class (`str.strip`, regex `\s`), ASCII part. -/
def pySpace (c : Char) : Bool :=
  c == ' ' || c == '\t' || c == '\n' || c == '\r' || c == '\x0b' || c == '\x0c'

/-- `str.strip()`: drop whitespace from both ends. -/
def pyStrip (s : String) : String :=
  String.mk
    (((s.data.dropWhile pySpace).reverse.dropWhile pySpace).reverse)

/-- Split a character list at newlines (`str.splitlines` for
newline-separated text; the split pieces only ever feed blank-line
tests, for which this model agrees with Python). -/
def splitNl : List Char → List (List Char)
  | [] => [[]]
  | c :: cs =>
    match splitNl cs with
    | [] => [[]]
    | r :: rs => if c == '\n' then [] :: r :: rs else (c :: r) :: rs

/-- `str.splitlines()` as used by `_estimate_line_count`. -/
def pySplitLines (s : String) : List String :=
  (splitNl s.data).map String.mk

/-! ## Identity scheme (`src/ir/models.py`) -/

/-- `parse_element_id` from `src/ir/models.py`: prepend the stripped model
name, keep the segments that are non-empty **before** stripping, strip
those, and join everything with `/`. -/
def parse_element_id (model_name : String) (segments : List String) : String :=
  let normalized := pyStrip model_name :: (segments.filter (fun s => s != "")).map pyStrip
  String.intercalate "/" normalized

/-! ## IR model (`src/ir/models.py`) -/

/-- `AccessModifier` enum from `src/ir/models.py`. -/
inductive AccessModifier where
  | PUBLIC
  | PROTECTED
  | PRIVATE
  | INTERNAL
deriving DecidableEq

/-- The string value of each `AccessModifier` member. -/
def AccessModifier.value : AccessModifier → String
  | .PUBLIC => "public"
  | .PROTECTED => "protected"
  | .PRIVATE => "private"
  | .INTERNAL => "internal"

/-- `FieldAccessType` enum from `src/ir/models.py`. -/
inductive FieldAccessType where
  | READ
  | WRITE
deriving DecidableEq

/-- `FieldAccessIR` dataclass from `src/ir/models.py`. -/
structure FieldAccessIR where
  table_name : String
  field_name : String
  model : String
  access_type : FieldAccessType
deriving DecidableEq

/-- `FieldAccessIR.target_field_id`. -/
def FieldAccessIR.target_field_id (a : FieldAccessIR) : String :=
  parse_element_id a.model [a.table_name, a.field_name]

/-- `MethodIR` dataclass from `src/ir/models.py`. -/
structure MethodIR where
  name : String
  aot_path : String
  model : String
  class_name : String
  access : AccessModifier
  is_static : Bool
  line_count : Option Int := none
  body : Option String := none
  called_methods : List String := []
  field_accesses : List FieldAccessIR := []
deriving DecidableEq

/-- `MethodIR.element_id`. -/
def MethodIR.element_id (m : MethodIR) : String :=
  parse_element_id m.model [m.class_name, m.name]

/-- `FieldIR` dataclass from `src/ir/models.py`. -/
structure FieldIR where
  name : String
  aot_path : String
  table_name : String
  model : String
  extended_data_type : Option String := none
  field_type : Option String := none
deriving DecidableEq

/-- `FieldIR.element_id`. -/
def FieldIR.element_id (f : FieldIR) : String :=
  parse_element_id f.model [f.table_name, f.name]

/-- `TableIR` dataclass from `src/ir/models.py`; `fields` is the
name-keyed dict. -/
structure TableIR where
  name : String
  aot_path : String
  model : String
  package : Option String := none
  layer : Option String := none
  fields : List (String × FieldIR) := []
deriving DecidableEq

/-- `TableIR.element_id`. -/
def TableIR.element_id (t : TableIR) : String :=
  parse_element_id t.model [t.name]

/-- `TableIR.add_field`: `self.fields[field_ir.name] = field_ir`. -/
def TableIR.add_field (t : TableIR) (f : FieldIR) : TableIR :=
  { t with fields := dictInsert t.fields f.name f }

/-- `ClassIR` dataclass from `src/ir/models.py`; `methods` is the
name-keyed dict.  Note the declared fields: there is **no**
`is_placeholder` field. -/
structure ClassIR where
  name : String
  aot_path : String
  model : String
  package : Option String := none
  layer : Option String := none
  base_class : Option String := none
  implements : List String := []
  methods : List (String × MethodIR) := []
deriving DecidableEq

/-- `ClassIR.element_id`. -/
def ClassIR.element_id (c : ClassIR) : String :=
  parse_element_id c.model [c.name]

/-- `ClassIR.add_method`: `self.methods[method_ir.name] = method_ir`. -/
def ClassIR.add_method (c : ClassIR) (m : MethodIR) : ClassIR :=
  { c with methods := dictInsert c.methods m.name m }

/-- The field names declared by the `ClassIR` dataclass in
`src/ir/models.py` (a Python dataclass accepts exactly these as keyword
arguments; any other keyword raises `TypeError`). -/
def classIRFieldNames : List String :=
  ["name", "aot_path", "model", "package", "layer", "base_class",
   "implements", "methods"]

/-- The field names declared by the `TableIR` dataclass. -/
def tableIRFieldNames : List String :=
  ["name", "aot_path", "model", "package", "layer", "fields"]

/-- The field names declared by the `FieldIR` dataclass. -/
def fieldIRFieldNames : List String :=
  ["name", "aot_path", "table_name", "model", "extended_data_type",
   "field_type"]

/-- Whether a Python dataclass call with the given keyword-argument names
is accepted (every keyword must be a declared field). -/
def dataclassAccepts (declared passed : List String) : Bool :=
  passed.all (fun k => declared.contains k)

/-! ## Lexical patterns (`src/pipeline/parser.py`)

`_CALL_PATTERN  = \b([A-Za-z_][A-Za-z0-9_]*)::([A-Za-z_][A-Za-z0-9_]*)\b`
`_FIELD_PATTERN = \b([A-Za-z_][A-Za-z0-9_]*)\.([A-Za-z_][A-Za-z0-9_]*)\b`

`findall` scans for leftmost non-overlapping matches.  Because the
identifier character classes are maximal word-char runs and the
separator is a non-word character, the regex engine's behaviour on these
two patterns is exactly token-based: a match starts at a word-boundary
position whose character can start an identifier, the first group is the
maximal word run there, the separator must follow immediately, the
second group is the next maximal word run (whose first character must be
able to start an identifier), and scanning resumes after the second
group.  `scanQual` implements precisely that (for the ASCII character
classes the patterns spell out). -/

/-- `[A-Za-z0-9_]` (the regex word characters used by both patterns). -/
def isWordChar (c : Char) : Bool :=
  c.isUpper || c.isLower || c.isDigit || c == '_'

/-- `[A-Za-z_]` (a character that can start one of the identifiers). -/
def isIdentStart (c : Char) : Bool :=
  c.isUpper || c.isLower || c == '_'

/-- Drop an exact separator lexeme from the front of the input, or fail. -/
def dropSep : List Char → List Char → Option (List Char)
  | [], l => some l
  | _ :: _, [] => none
  | p :: ps, c :: cs => if c == p then dropSep ps cs else none

/-- One pass of `findall` for the pattern
`\b(ident)(sep)(ident)\b` where `sep` is `::` or `.`.  Every step
consumes at least one character of the input, so running it with the
input's length as (structurally decreasing) fuel computes the full
scan: the zero-fuel branch is reached only on an empty input. -/
def scanQualFuel (sep : List Char) : Nat → List Char →
    List (List Char × List Char)
  | 0, _ => []
  | _ + 1, [] => []
  | fuel + 1, c :: cs =>
    if isIdentStart c then
      let r1 := cs.takeWhile isWordChar
      let rest1 := cs.dropWhile isWordChar
      match dropSep sep rest1 with
      | some rest2 =>
        match rest2 with
        | [] => scanQualFuel sep fuel rest1
        | d :: ds =>
          if isIdentStart d then
            let r2 := ds.takeWhile isWordChar
            let rest3 := ds.dropWhile isWordChar
            (c :: r1, d :: r2) :: scanQualFuel sep fuel rest3
          else scanQualFuel sep fuel rest1
      | none => scanQualFuel sep fuel rest1
    else if isWordChar c then
      scanQualFuel sep fuel (cs.dropWhile isWordChar)
    else
      scanQualFuel sep fuel cs

/-- The full scan of an input. -/
def scanQual (sep : List Char) (l : List Char) :
    List (List Char × List Char) :=
  scanQualFuel sep l.length l

/-- `_CALL_PATTERN.findall(source)` as pairs of group strings. -/
def callMatches (source : String) : List (String × String) :=
  (scanQual [':', ':'] source.data).map (fun p => (String.mk p.1, String.mk p.2))

/-- `_FIELD_PATTERN.findall(source)` as pairs of group strings. -/
def fieldMatches (source : String) : List (String × String) :=
  (scanQual ['.'] source.data).map (fun p => (String.mk p.1, String.mk p.2))

/-! ## Write classification (`AOTParser._is_write`)

`_is_write` searches the body for `escape(table)\.escape(field)\s*:=`
with `re.IGNORECASE` (the table and field names come from
`_FIELD_PATTERN` groups, so `re.escape` is the identity on them).
`IGNORECASE` is modelled by lowercasing both the pattern and the text;
`\s` is Python's ASCII whitespace class. -/

/-- ASCII lowercasing of a character list (the effect of `re.IGNORECASE`
on the ASCII identifiers involved). -/
def lowerL (l : List Char) : List Char := l.map Char.toLower

/-- Match an exact pattern at the front of the input, returning the rest. -/
def matchPat : List Char → List Char → Option (List Char)
  | [], l => some l
  | _ :: _, [] => none
  | p :: ps, c :: cs => if c == p then matchPat ps cs else none

/-- After the matched `table.field` text: `\s*` then the literal `:=`
(the greedy whitespace run is maximal, and since `:` is not whitespace
no backtracking can help, so this is skip-spaces-then-check). -/
def assignAfter (r : List Char) : Bool :=
  match r.dropWhile pySpace with
  | c1 :: c2 :: _ => c1 == ':' && c2 == '='
  | _ => false

/-- `re.search` for `pat` followed by `\s*:=`: try every start position. -/
def writeSearch (pat : List Char) : List Char → Bool
  | [] => false
  | c :: cs =>
    (match matchPat pat (c :: cs) with
     | some rest => assignAfter rest
     | none => false) || writeSearch pat cs

/-- `AOTParser._is_write` from `src/pipeline/parser.py`. -/
def is_write (source table_name field_name : String) : Bool :=
  writeSearch (lowerL table_name.data ++ '.' :: lowerL field_name.data)
    (lowerL source.data)

/-! ## Call and field-access extraction (`src/pipeline/parser.py`) -/

/-- `AOTParser._extract_called_methods`: map every `Identifier::Identifier`
match to a canonical ID in the calling method's own model, deduplicated
by resulting ID with first-occurrence order (the `seen` set / `results`
list loop of the source). -/
def extract_called_methods (source : Option String) (model : String) :
    List String :=
  match source with
  | none => []
  | some src =>
    ((callMatches src).foldl
      (fun (acc : List String × List String) p =>
        let method_id := parse_element_id model [p.1, p.2]
        if method_id ∈ acc.1 then acc
        else (method_id :: acc.1, acc.2 ++ [method_id]))
      ([], [])).2

/-- `AOTParser._extract_field_accesses`: for every `Identifier.Identifier`
match, skip it unless the first group is a known table of the batch and
the second group one of its declared fields; each surviving occurrence
appends one record, classified by `_is_write` over the whole body. -/
def extract_field_accesses (source : Option String) (model : String)
    (table_field_lookup : List (String × List String)) : List FieldAccessIR :=
  match source with
  | none => []
  | some src =>
    (fieldMatches src).foldl
      (fun accesses p =>
        match dictGet table_field_lookup p.1 with
        | none => accesses
        | some fields =>
          if fields.contains p.2 then
            accesses ++
              [{ table_name := p.1, field_name := p.2, model := model,
                 access_type :=
                   if is_write src p.1 p.2 then FieldAccessType.WRITE
                   else FieldAccessType.READ }]
          else accesses)
      []

/-! ## Document model and walker (`src/pipeline/parser.py`)

Input documents are element trees: tag, attribute dict, text, children.
`str.lower` / `str.strip` are modelled for the ASCII inputs the parser
compares against.  `getattr(element, "base", None)` is always `None`
for `xml.etree` elements, so the walker's `path_hint` is `none`.
Python's `hash` of the current file path is process-dependent; it is
modelled by an explicit `pathHash` parameter threaded through the
walker (it only affects placeholder names). -/

/-- An element of a parsed input document. -/
inductive XElem where
  | mk (tag : String) (attrib : List (String × String)) (text : Option String)
      (children : List XElem)

def XElem.tag : XElem → String
  | .mk t _ _ _ => t

def XElem.attrib : XElem → List (String × String)
  | .mk _ a _ _ => a

def XElem.text : XElem → Option String
  | .mk _ _ x _ => x

def XElem.children : XElem → List XElem
  | .mk _ _ _ cs => cs

/-- `element.attrib.get(key)`. -/
def XElem.attribGet (e : XElem) (key : String) : Option String :=
  dictGet e.attrib key

/-- Collapse a Python-falsy optional string (`None` or `""`) to `none`. -/
def truthy? (x : Option String) : Option String :=
  match x with
  | some s => if s = "" then none else some s
  | none => none

/-- Python `a or d` where `d` is a (truthy) plain string. -/
def pyOrD (a : Option String) (d : String) : String :=
  match a with
  | some s => if s = "" then d else s
  | none => d

/-- ASCII `str.lower()`. -/
def pyLower (s : String) : String :=
  String.mk (s.data.map Char.toLower)

/-- Drop everything up to and including the first closing brace. -/
def dropThroughBrace : List Char → List Char
  | [] => []
  | c :: cs => if c == '\x7d' then cs else dropThroughBrace cs

/-- `_strip_namespace`: `tag.split("\x7d", 1)[1] if "\x7d" in tag else tag`. -/
def strip_namespace (tag : String) : String :=
  if tag.data.contains '\x7d' then String.mk (dropThroughBrace tag.data) else tag

/-- Substring containment (Python `needle in haystack`). -/
def hasSubstr (hay pat : List Char) : Bool :=
  match hay with
  | [] => (matchPat pat ([] : List Char)).isSome
  | _ :: rest => (matchPat pat hay).isSome || hasSubstr rest pat

/-- `AOTParser._find_child`: first direct child whose namespace-stripped,
lowercased tag equals the lowercased tag name. -/
def find_child (e : XElem) (tagName : String) : Option XElem :=
  e.children.find? (fun c => pyLower (strip_namespace c.tag) == pyLower tagName)

/-- `AOTParser._find_text`: the stripped text of that child when the raw
text is truthy. -/
def find_text (e : XElem) (tagName : String) : Option String :=
  match find_child e tagName with
  | some c =>
    match c.text with
    | some t => if t = "" then none else some (pyStrip t)
    | none => none
  | none => none

/-- All proper descendants of the listed elements, in document order
(the matches of an ElementTree `.//` search run over this list).  The
recursion is bounded by a structurally decreasing size budget: one unit
is consumed per element and per nesting level, so any budget dominating
the document size computes the full descendant list (the zero branch is
unreachable then).  Every function below that performs a `.//` search
carries this budget. -/
def xDescendFuel : Nat → List XElem → List XElem
  | 0, _ => []
  | _ + 1, [] => []
  | fuel + 1, XElem.mk t a x cs :: rest =>
      XElem.mk t a x cs :: (xDescendFuel fuel cs ++ xDescendFuel fuel rest)

/-- `element.findall(".//tagName")` (exact raw-tag comparison, as
ElementTree performs it). -/
def findallDesc (fuel : Nat) (e : XElem) (tagName : String) : List XElem :=
  (xDescendFuel fuel e.children).filter (fun c => c.tag == tagName)

/-- `element.findall(".//parentTag/childTag")`. -/
def findallDescChild (fuel : Nat) (e : XElem) (parentTag childTag : String) :
    List XElem :=
  ((xDescendFuel fuel e.children).filter (fun c => c.tag == parentTag)).flatMap
    (fun c => c.children.filter (fun d => d.tag == childTag))

/-- `_text_from_child`: stripped text of the first `.//tagName`
descendant when its raw text is truthy. -/
def text_from_child (fuel : Nat) (e : XElem) (tagName : String) : Option String :=
  match (findallDesc fuel e tagName).head? with
  | some c =>
    match c.text with
    | some t => if t = "" then none else some (pyStrip t)
    | none => none
  | none => none

/-- `_parse_access_modifier` from `src/pipeline/parser.py`. -/
def parse_access_modifier (fuel : Nat) (e : XElem) : AccessModifier :=
  let a0 := pyOr (e.attribGet "Access") (e.attribGet "Modifier")
  let a1 := match a0 with
    | some s => if s = "" then text_from_child fuel e "Access" else some s
    | none => text_from_child fuel e "Access"
  let a2 := pyLower (pyOrD a1 "public")
  if a2 = "public" then .PUBLIC
  else if a2 = "protected" then .PROTECTED
  else if a2 = "private" then .PRIVATE
  else if a2 = "internal" then .INTERNAL
  else .PUBLIC

/-- `_parse_is_static` from `src/pipeline/parser.py`. -/
def parse_is_static (fuel : Nat) (e : XElem) : Bool :=
  let v0 := pyOr (e.attribGet "Static") (e.attribGet "IsStatic")
  let v1 := match v0 with
    | some s => some s
    | none => text_from_child fuel e "Static"
  match v1 with
  | none => false
  | some v => ["true", "yes", "1"].contains (pyLower (pyStrip v))

/-- `_estimate_line_count`: number of non-blank lines of a truthy source. -/
def estimate_line_count (source : Option String) : Option Int :=
  match source with
  | none => none
  | some s =>
    if s = "" then none
    else some ((pySplitLines s).filter (fun line => pyStrip line != "")).length

/-- `AOTParser._placeholder_name`. -/
def placeholder_name (currentFile : Option String) (pathHash : String → Nat)
    (pfx : String) (sfx : Option String) : String :=
  let base := if pyStrip pfx = "" then "Unnamed" else pyStrip pfx
  let base := match sfx with
    | some s => if s = "" then base else base ++ "_" ++ s
    | none => base
  match currentFile with
  | some p => base ++ "_" ++ toString (pathHash p % 65536)
  | none => base ++ "_Placeholder"

/-- The keyword arguments the `ClassIR(...)` call in
`AOTParser._parse_class` passes (note `is_placeholder`). -/
def parseClassKwargs : List String :=
  ["name", "aot_path", "model", "package", "layer", "base_class",
   "implements", "is_placeholder"]

/-- The keyword arguments of the `TableIR(...)` call in `_parse_table`. -/
def parseTableKwargs : List String :=
  ["name", "aot_path", "model", "package", "layer", "is_placeholder"]

/-- The keyword arguments of the `FieldIR(...)` call in `_parse_field`. -/
def parseFieldKwargs : List String :=
  ["name", "aot_path", "table_name", "model", "extended_data_type",
   "field_type", "is_placeholder"]

/-- `AOTParser._parse_method`: returns `none` when the method element has
no truthy name (warn-and-skip); otherwise builds the `MethodIR` (all of
that call's keywords are declared fields, so construction succeeds). -/
def parse_method (fuel : Nat) (e : XElem) (class_ir : ClassIR) : Option MethodIR :=
  match truthy? (pyOr (e.attribGet "Name")
      (pyOr (e.attribGet "name") (find_text e "Name"))) with
  | none => none
  | some name =>
    let aot_path := pyOrD (pyOr (e.attribGet "Id") (e.attribGet "Path"))
      (class_ir.aot_path ++ "/" ++ name)
    let source := pyOr (find_text e "Source") (find_text e "Code")
    some
      { name := name, aot_path := aot_path, model := class_ir.model,
        class_name := class_ir.name, access := parse_access_modifier fuel e,
        is_static := parse_is_static fuel e,
        line_count := estimate_line_count source, body := source,
        called_methods := extract_called_methods source class_ir.model }

/-- `AOTParser._parse_class`.  The source resolves the name (with
placeholder fallback), the path, layer, base class and interfaces, then
calls `ClassIR(..., is_placeholder=...)`; since `is_placeholder` is not
a declared field of the `ClassIR` dataclass, that call raises
`TypeError`, modelled by the rejected-keyword branch.  The method loop
of the source runs after the construction and is embedded in the
(unreachable) accepting branch. -/
def parse_class (fuel : Nat) (currentFile : Option String)
    (pathHash : String → Nat)
    (e : XElem) (model package : Option String) (path_hint : Option String) :
    Except String ClassIR :=
  let name := match truthy? (pyOr (e.attribGet "Name")
      (pyOr (e.attribGet "name") (find_text e "Name"))) with
    | some n => n
    | none => placeholder_name currentFile pathHash "Class" none
  let aot_path := pyOrD (pyOr (e.attribGet "Id")
      (pyOr (e.attribGet "Path") path_hint)) name
  let layer := e.attribGet "Layer"
  let base_class := pyOr (find_text e "Extends") (e.attribGet "Extends")
  let implementsList := (findallDesc fuel e "Implements").filterMap (fun c =>
    match c.text with
    | some t => if t ≠ "" ∧ pyStrip t ≠ "" then some (pyStrip t) else none
    | none => none)
  if dataclassAccepts classIRFieldNames parseClassKwargs then
    let class_ir : ClassIR :=
      { name := name, aot_path := aot_path, model := pyOrD model "UNKNOWN",
        package := package, layer := layer, base_class := base_class,
        implements := implementsList }
    let m0 := findallDescChild fuel e "Methods" "Method"
    let m1 := if m0.isEmpty then findallDesc fuel e "Method" else m0
    let method_elements := if m1.isEmpty then findallDesc fuel e "AxMethod" else m1
    let class_ir := method_elements.foldl (fun c me =>
      if hasSubstr (pyLower (strip_namespace me.tag)).data "method".data then
        match parse_method fuel me c with
        | some m => c.add_method m
        | none => c
      else c) class_ir
    Except.ok class_ir
  else
    Except.error
      "TypeError: ClassIR got an unexpected keyword argument is_placeholder"

/-- `AOTParser._parse_field`: resolves name (placeholder fallback with the
table name as suffix), path and types, then calls
`FieldIR(..., is_placeholder=...)`, which raises `TypeError`. -/
def parse_field (_fuel : Nat) (currentFile : Option String)
    (pathHash : String → Nat)
    (e : XElem) (table_ir : TableIR) : Except String FieldIR :=
  let name := match truthy? (pyOr (e.attribGet "Name")
      (pyOr (e.attribGet "name") (find_text e "Name"))) with
    | some n => n
    | none => placeholder_name currentFile pathHash "Field" (some table_ir.name)
  let aot_path := pyOrD (pyOr (e.attribGet "Id") (e.attribGet "Path"))
    (table_ir.aot_path ++ "/" ++ name)
  let edt := pyOr (e.attribGet "ExtendedDataType")
    (find_text e "ExtendedDataType")
  let field_type := pyOr (e.attribGet "Type") (find_text e "Type")
  if dataclassAccepts fieldIRFieldNames parseFieldKwargs then
    Except.ok
      { name := name, aot_path := aot_path, table_name := table_ir.name,
        model := table_ir.model, extended_data_type := edt,
        field_type := field_type }
  else
    Except.error
      "TypeError: FieldIR got an unexpected keyword argument is_placeholder"

/-- `AOTParser._parse_table`: calls `TableIR(..., is_placeholder=...)`,
which raises `TypeError`; the field loop of the source runs after the
construction and sits in the (unreachable) accepting branch. -/
def parse_table (fuel : Nat) (currentFile : Option String)
    (pathHash : String → Nat)
    (e : XElem) (model package : Option String) : Except String TableIR :=
  let name := match truthy? (pyOr (e.attribGet "Name")
      (pyOr (e.attribGet "name") (find_text e "Name"))) with
    | some n => n
    | none => placeholder_name currentFile pathHash "Table" none
  let aot_path := pyOrD (pyOr (e.attribGet "Id") (e.attribGet "Path")) name
  let layer := e.attribGet "Layer"
  if dataclassAccepts tableIRFieldNames parseTableKwargs then
    let table_ir : TableIR :=
      { name := name, aot_path := aot_path, model := pyOrD model "UNKNOWN",
        package := package, layer := layer }
    let field_elements := match (findallDesc fuel e "Fields").head? with
      | some fc => fc.children
      | none =>
        let f1 := findallDesc fuel e "AxTableField"
        if f1.isEmpty then findallDesc fuel e "Field" else f1
    field_elements.foldlM (fun t fe =>
      if hasSubstr (pyLower (strip_namespace fe.tag)).data "field".data then
        match parse_field fuel currentFile pathHash fe t with
        | Except.ok f => Except.ok (t.add_field f)
        | Except.error err => Except.error err
      else Except.ok t) table_ir
  else
    Except.error
      "TypeError: TableIR got an unexpected keyword argument is_placeholder"

/-- The state of the walk: the `classes` and `tables` dicts keyed by
canonical ID. -/
abbrev WalkState := List (String × ClassIR) × List (String × TableIR)

/-- `AOTParser._walk`: update model/package context, dispatch class and
table containers (without descending into them), recurse elsewhere.  A
`TypeError` raised inside a type parser propagates.  Each recursion
level moves to the children of the current element, so running the walk
with the element's `sizeOf` as (structurally decreasing) fuel performs
the full traversal: the zero-fuel branch is unreachable since
`sizeOf child < sizeOf element`. -/
def walkFuel (currentFile : Option String) (pathHash : String → Nat) :
    Nat → XElem → WalkState → Option String → Option String →
    Except String WalkState
  | 0, _, st, _, _ => Except.ok st
  | fuel + 1, XElem.mk t a x cs, st, curModel, curPackage =>
    let e := XElem.mk t a x cs
    let tag := strip_namespace t
    let curModel' :=
      if ["model", "package"].contains (pyLower tag) then
        pyOr (e.attribGet "Name") (pyOr (e.attribGet "name") curModel)
      else curModel
    let curPackage' :=
      if ["model", "package"].contains (pyLower tag) then
        pyOr (e.attribGet "Name") (pyOr (e.attribGet "name") curPackage)
      else curPackage
    let base_path : Option String := none
    if ["axclass", "class"].contains (pyLower tag) then
      match parse_class (fuel + 1) currentFile pathHash e curModel' curPackage' base_path with
      | Except.ok c => Except.ok (dictInsert st.1 c.element_id c, st.2)
      | Except.error err => Except.error err
    else if ["axtable", "table"].contains (pyLower tag) then
      match parse_table (fuel + 1) currentFile pathHash e curModel' curPackage' with
      | Except.ok tb => Except.ok (st.1, dictInsert st.2 tb.element_id tb)
      | Except.error err => Except.error err
    else
      cs.foldlM
        (fun st2 c => walkFuel currentFile pathHash fuel c st2 curModel' curPackage')
        st

/-- One `_walk` call on a document root, with a size budget dominating
the document. -/
def walkElem (fuel : Nat) (currentFile : Option String)
    (pathHash : String → Nat)
    (e : XElem) (st : WalkState) (curModel curPackage : Option String) :
    Except String WalkState :=
  walkFuel currentFile pathHash fuel e st curModel curPackage

/-- `_populate_field_accesses`: build the table → declared-field-names
lookup from the parsed tables, then recompute every method's
`field_accesses` from its stored body. -/
def populate_field_accesses (classes : List (String × ClassIR))
    (tables : List (String × TableIR)) : List (String × ClassIR) :=
  let table_field_lookup := tables.foldl
    (fun acc kv => dictInsert acc kv.2.name (kv.2.fields.map (fun f => f.2.name)))
    []
  classes.map (fun kv =>
    (kv.1, { kv.2 with methods := kv.2.methods.map (fun nm =>
      (nm.1, { nm.2 with field_accesses :=
        extract_field_accesses nm.2.body nm.2.model table_field_lookup })) }))

/-- `AOTParser.parse`: walk every document in order, then populate field
accesses.  Each document is a (path, root-element) pair. -/
def parse (fuel : Nat) (pathHash : String → Nat)
    (paths : List (String × XElem)) :
    Except String WalkState :=
  match paths.foldlM
      (fun st pe => walkElem fuel (some pe.1) pathHash pe.2 st none none)
      (([], []) : WalkState) with
  | Except.ok (classes, tables) =>
      Except.ok (populate_field_accesses classes tables, tables)
  | Except.error err => Except.error err

/-! ## Schema constants (`src/graph/schema.py`) -/

def NODE_CLASS : String := "Class"
def NODE_METHOD : String := "Method"
def NODE_TABLE : String := "Table"
def NODE_FIELD : String := "Field"
def NODE_MODEL : String := "Model"
def NODE_PACKAGE : String := "Package"

def REL_EXTENDS : String := "EXTENDS"
def REL_DECLARES_METHOD : String := "DECLARES_METHOD"
def REL_HAS_FIELD : String := "HAS_FIELD"
def REL_CALLS : String := "CALLS"
def REL_READS_FIELD : String := "READS_FIELD"
def REL_WRITES_FIELD : String := "WRITES_FIELD"
def REL_BELONGS_TO_MODEL : String := "BELONGS_TO_MODEL"
def REL_BELONGS_TO_PACKAGE : String := "BELONGS_TO_PACKAGE"

/-- A node property value (the payloads of this loader carry strings,
booleans and integers). -/
inductive PropVal where
  | s (v : String)
  | b (v : Bool)
  | i (v : Int)
deriving DecidableEq

/-- A property payload (a Python dict: ordered, unique keys). -/
abbrev Props := List (String × PropVal)

/-- `format_node_properties` from `src/graph/schema.py`: drop the `None`
values of the payload, keep everything else. -/
def format_node_properties (payload : List (String × Option PropVal)) : Props :=
  payload.filterMap (fun kv => kv.2.map (fun v => (kv.1, v)))

/-! ## Graph store state (`src/graph/loader.py`)

The Neo4j store is modelled as explicit state: a list of nodes, each
keyed by (label, id) with a property map, and a list of relationships
keyed by the full (startLabel, startId, type, endLabel, endId) tuple.
`MERGE (n:L \x7bid: $id\x7d) SET n += $props` matches or creates the node by
(label, id) and overlays the payload onto its properties.
`MATCH start MATCH end MERGE (start)-[r:T]->(end)` creates the
relationship only when both endpoint nodes exist, and is a no-op when
the relationship is already present; it never fails.  Schema/index DDL
(`ensure_schema`) does not change nodes or relationships and is not part
of the state. -/

structure GraphNode where
  label : String
  id : String
  props : Props
deriving DecidableEq

structure GraphRel where
  startLabel : String
  startId : String
  relType : String
  endLabel : String
  endId : String
deriving DecidableEq

structure GraphState where
  nodes : List GraphNode
  rels : List GraphRel
deriving DecidableEq

/-- The empty store. -/
def emptyGraph : GraphState := { nodes := [], rels := [] }

/-- First-match lookup in a property payload. -/
def propsLookup (props : Props) (key : String) : Option PropVal :=
  match props with
  | [] => none
  | (k, v) :: rest => if k = key then some v else propsLookup rest key

/-- `SET n += $props`: overlay the payload on the existing properties. -/
def setProps (old new : Props) : Props :=
  new.foldl (fun acc kv => dictInsert acc kv.1 kv.2) old

/-- Does a node with this (label, id) key exist? -/
def nodeKeyPresent (s : GraphState) (label id : String) : Bool :=
  s.nodes.any (fun n => n.label == label && n.id == id)

/-- `GraphLoader._merge_node`: raise `ValueError` when the payload has no
truthy `id` (all payloads of this loader carry string ids), else merge
the node by (label, id) and overlay the payload. -/
def merge_node (s : GraphState) (label : String) (props : Props) :
    Except String GraphState :=
  match propsLookup props "id" with
  | some (PropVal.s nodeId) =>
    if nodeId = "" then
      Except.error ("ValueError: node properties for label " ++ label ++
        " missing id")
    else if nodeKeyPresent s label nodeId then
      Except.ok { s with nodes := s.nodes.map (fun n =>
        if n.label == label && n.id == nodeId then
          { n with props := setProps n.props props }
        else n) }
    else
      Except.ok { s with nodes :=
        s.nodes ++ [{ label := label, id := nodeId, props := props }] }
  | _ =>
    Except.error ("ValueError: node properties for label " ++ label ++
      " missing id")

/-- `GraphLoader._merge_relationship`: `MATCH`/`MATCH`/`MERGE` — create
the relationship only when both endpoints exist; silently do nothing
otherwise; never an error. -/
def merge_relationship (s : GraphState) (startLabel startId relType
    endLabel endId : String) : GraphState :=
  if nodeKeyPresent s startLabel startId && nodeKeyPresent s endLabel endId then
    let r : GraphRel :=
      { startLabel := startLabel, startId := startId, relType := relType,
        endLabel := endLabel, endId := endId }
    if s.rels.contains r then s else { s with rels := s.rels ++ [r] }
  else s

/-- `parse_related_class_id` from `src/graph/loader.py`. -/
def parse_related_class_id (class_reference : String) (fallback_model : String) :
    Option String :=
  if class_reference.data.contains '/' then some class_reference
  else if class_reference ≠ "" then
    some (fallback_model ++ "/" ++ class_reference)
  else none

/-- `GraphLoader._merge_model_relations`: merge the Model node and the
BELONGS_TO_MODEL edge; when the package name is truthy, also the Package
node and the BELONGS_TO_PACKAGE edge. -/
def merge_model_relations (s : GraphState) (node_label node_id model_name :
    String) (package_name : Option String) : Except String GraphState := do
  let s ← merge_node s NODE_MODEL
    [("id", PropVal.s model_name), ("name", PropVal.s model_name)]
  let s := merge_relationship s node_label node_id REL_BELONGS_TO_MODEL
    NODE_MODEL model_name
  match truthy? package_name with
  | some p => do
    let s ← merge_node s NODE_PACKAGE
      [("id", PropVal.s p), ("name", PropVal.s p)]
    pure (merge_relationship s node_label node_id REL_BELONGS_TO_PACKAGE
      NODE_PACKAGE p)
  | none => pure s

/-- The node payload `_upsert_method` builds. -/
def methodProps (m : MethodIR) : Props :=
  format_node_properties
    [("id", some (PropVal.s m.element_id)),
     ("name", some (PropVal.s m.name)),
     ("aotPath", some (PropVal.s m.aot_path)),
     ("model", some (PropVal.s m.model)),
     ("className", some (PropVal.s m.class_name)),
     ("access", some (PropVal.s m.access.value)),
     ("isStatic", some (PropVal.b m.is_static)),
     ("lineCount", m.line_count.map PropVal.i),
     ("body", m.body.map PropVal.s)]

/-- `GraphLoader._upsert_method`. -/
def upsert_method (s : GraphState) (m : MethodIR) : Except String GraphState :=
  merge_node s NODE_METHOD (methodProps m)

/-- The node payload `_upsert_class` builds. -/
def classProps (c : ClassIR) : Props :=
  format_node_properties
    [("id", some (PropVal.s c.element_id)),
     ("name", some (PropVal.s c.name)),
     ("aotPath", some (PropVal.s c.aot_path)),
     ("model", some (PropVal.s c.model)),
     ("package", c.package.map PropVal.s),
     ("layer", c.layer.map PropVal.s),
     ("baseClass", c.base_class.map PropVal.s)]

/-- `GraphLoader._upsert_class`, in source order: merge the class node,
the model/package relations, every method node with its DECLARES_METHOD
edge, and finally — still inside the per-class upsert, i.e. during the
node phase of `sync_ir` — the EXTENDS edge for a truthy base-class
reference. -/
def upsert_class (s : GraphState) (c : ClassIR) : Except String GraphState := do
  let s ← merge_node s NODE_CLASS (classProps c)
  let s ← merge_model_relations s NODE_CLASS c.element_id c.model c.package
  let s ← c.methods.foldlM (fun st nm => do
    let st ← upsert_method st nm.2
    pure (merge_relationship st NODE_CLASS c.element_id REL_DECLARES_METHOD
      NODE_METHOD nm.2.element_id)) s
  match truthy? c.base_class with
  | some b =>
    match parse_related_class_id b c.model with
    | some base_id =>
      if base_id = "" then pure s
      else pure (merge_relationship s NODE_CLASS c.element_id REL_EXTENDS
        NODE_CLASS base_id)
    | none => pure s
  | none => pure s

/-- The node payload `_upsert_field` builds. -/
def fieldProps (f : FieldIR) : Props :=
  format_node_properties
    [("id", some (PropVal.s f.element_id)),
     ("name", some (PropVal.s f.name)),
     ("aotPath", some (PropVal.s f.aot_path)),
     ("model", some (PropVal.s f.model)),
     ("tableName", some (PropVal.s f.table_name)),
     ("extendedDataType", f.extended_data_type.map PropVal.s),
     ("fieldType", f.field_type.map PropVal.s)]

/-- The node payload `_upsert_table` builds. -/
def tableProps (t : TableIR) : Props :=
  format_node_properties
    [("id", some (PropVal.s t.element_id)),
     ("name", some (PropVal.s t.name)),
     ("aotPath", some (PropVal.s t.aot_path)),
     ("model", some (PropVal.s t.model)),
     ("package", t.package.map PropVal.s),
     ("layer", t.layer.map PropVal.s)]

/-- `GraphLoader._upsert_table`: table node, model/package relations,
then every field node with its HAS_FIELD edge. -/
def upsert_table (s : GraphState) (t : TableIR) : Except String GraphState := do
  let s ← merge_node s NODE_TABLE (tableProps t)
  let s ← merge_model_relations s NODE_TABLE t.element_id t.model t.package
  t.fields.foldlM (fun st nf => do
    let st ← merge_node st NODE_FIELD (fieldProps nf.2)
    pure (merge_relationship st NODE_TABLE t.element_id REL_HAS_FIELD
      NODE_FIELD nf.2.element_id)) s

/-- `GraphLoader._upsert_method_relationships`: for every method of the
class, CALLS edges to each called-method ID, then READS_FIELD /
WRITES_FIELD edges for each field-access record.  Only relationship
merges: total, never an error. -/
def upsert_method_relationships (s : GraphState) (c : ClassIR) : GraphState :=
  c.methods.foldl (fun st nm =>
    let m := nm.2
    let st := m.called_methods.foldl (fun st2 target_method_id =>
      merge_relationship st2 NODE_METHOD m.element_id REL_CALLS NODE_METHOD
        target_method_id) st
    m.field_accesses.foldl (fun st2 access =>
      let rel_type := if access.access_type = FieldAccessType.READ
        then REL_READS_FIELD else REL_WRITES_FIELD
      merge_relationship st2 NODE_METHOD m.element_id rel_type NODE_FIELD
        access.target_field_id) st) s

/-- `GraphLoader.sync_ir`: upsert every class (which, per
`_upsert_class`, already merges DECLARES_METHOD, BELONGS_TO_* and
EXTENDS edges), then every table, then the per-method CALLS and
field-access relationships. -/
def sync_ir (classes : List ClassIR) (tables : List TableIR)
    (s : GraphState) : Except String GraphState := do
  let s ← classes.foldlM upsert_class s
  let s ← tables.foldlM upsert_table s
  pure (classes.foldl upsert_method_relationships s)

/-! ## Specification-side definitions

These definitions follow the wording of the specification (not the
source); they are the comparison targets for the refinement-style
claims. -/

/-- Plain recursive slash-join (the "slash-joined sequence" of the
specification). -/
def joinSlash : List String → String
  | [] => ""
  | [s] => s
  | s :: rest => s ++ "/" ++ joinSlash rest

/-- The same join at character level. -/
def charJoin : List (List Char) → List Char
  | [] => []
  | [x] => x
  | x :: xs => x ++ '/' :: charJoin xs

/-- The claimed `make_id` of C8: slash-join of the whitespace-trimmed
model and the whitespace-trimmed segments **with empty segments
omitted** (trim first, then omit what is empty). -/
def claimed_make_id (model_name : String) (segments : List String) : String :=
  String.intercalate "/"
    (pyStrip model_name :: (segments.map pyStrip).filter (fun s => s != ""))

/-- A name that is non-empty, already trimmed and slash-free — the class
of names on which identifier composition is injective. -/
def CleanName (s : String) : Prop :=
  s ≠ "" ∧ pyStrip s = s ∧ '/' ∉ s.data

instance (s : String) : Decidable (CleanName s) := by
  unfold CleanName; infer_instance

/-- Order-preserving first-occurrence deduplication, relative to an
already-seen set. -/
def dedupFirstFrom (seen : List String) : List String → List String
  | [] => []
  | x :: xs =>
    if x ∈ seen then dedupFirstFrom seen xs
    else x :: dedupFirstFrom (x :: seen) xs

/-- The claimed write test of C6: some occurrence of the **exact**
`table.field` text is followed by optional whitespace and `:=`. -/
def ExactWrite (src t f : String) : Prop :=
  ∃ a w b : List Char,
    src.data = a ++ (t.data ++ '.' :: f.data) ++ w ++ [':', '='] ++ b ∧
    ∀ c ∈ w, pySpace c = true

/-- The write test the code actually implements, stated declaratively:
some occurrence of the `table.field` text, compared case-insensitively,
is followed by optional whitespace and `:=`. -/
def CIWrite (src t f : String) : Prop :=
  ∃ a w b : List Char,
    lowerL src.data =
      a ++ (lowerL t.data ++ '.' :: lowerL f.data) ++ w ++ [':', '='] ++ b ∧
    ∀ c ∈ w, pySpace c = true

/-- Number of relationships of a given type ending at a given node id. -/
def relCountTo (s : GraphState) (rel_type endId : String) : Nat :=
  (s.rels.filter (fun r => r.relType == rel_type && r.endId == endId)).length

/-- Is this relationship an EXTENDS edge into the Class node `bid`? -/
def extendsToBid (bid : String) (r : GraphRel) : Bool :=
  r.relType == REL_EXTENDS && r.endLabel == NODE_CLASS && r.endId == bid

/-- The invariant of the dangling-endpoint argument: no Class node with
id `bid` exists, and the EXTENDS edges into `bid` are exactly the
baseline ones. -/
def SyncInv (bid : String) (base : List GraphRel) (s : GraphState) : Prop :=
  (∀ n ∈ s.nodes, ¬(n.label = NODE_CLASS ∧ n.id = bid)) ∧
  s.rels.filter (extendsToBid bid) = base

/-! ## Concrete batches used by the closed theorems -/

/-- A class `A` whose base-class reference points at `B`. -/
def clsA : ClassIR :=
  { name := "A", aot_path := "A", model := "M", base_class := some "B" }

/-- The class `B`, appearing **after** `A` in the batch. -/
def clsB : ClassIR :=
  { name := "B", aot_path := "B", model := "M" }

/-- The §8 method body. -/
def body8 : String :=
  "if (CustTable.Blocked) \x7b CustTable.Blocked := false; \x7d BaseValidator::log();"

/-- The table/field universe of the §8 batch. -/
def lookup8 : List (String × List String) := [("CustTable", ["Blocked"])]

/-- The §8 method `validate`, with its derived call and field-access
attributes computed exactly as the parser computes them. -/
def mValidate : MethodIR :=
  { name := "validate", aot_path := "CustomerValidator/validate",
    model := "ModuleA", class_name := "CustomerValidator",
    access := AccessModifier.PUBLIC, is_static := false,
    body := some body8,
    called_methods := extract_called_methods (some body8) "ModuleA",
    field_accesses := extract_field_accesses (some body8) "ModuleA" lookup8 }

/-- The §8 class `CustomerValidator`. -/
def cls8 : ClassIR :=
  { name := "CustomerValidator", aot_path := "CustomerValidator",
    model := "ModuleA", base_class := some "BaseValidator",
    methods := [("validate", mValidate)] }

/-- The §8 field `Blocked`. -/
def fld8 : FieldIR :=
  { name := "Blocked", aot_path := "CustTable/Blocked",
    table_name := "CustTable", model := "ModuleA" }

/-- The §8 table `CustTable`. -/
def tbl8 : TableIR :=
  { name := "CustTable", aot_path := "CustTable", model := "ModuleA",
    fields := [("Blocked", fld8)] }

/-- The canonical ID of the §8 field. -/
def fld8Id : String := "ModuleA/CustTable/Blocked"

/-- A document whose root is a well-formed class element. -/
def docClassA : XElem := XElem.mk "AxClass" [("Name", "A")] none []

/-- A body whose only exact-text occurrence of `CustTable.Blocked` is a
read, but which contains a differently-cased write. -/
def bodyCI : String := "CustTable.Blocked; custtable.blocked := 1;"

/-- A class whose base-class reference resolves to `M/Ghost`, a class
that never appears in the batch. -/
def clsDangling : ClassIR :=
  { name := "A", aot_path := "A", model := "M", base_class := some "Ghost" }

/-- The store state `sync_ir [clsDangling] [] emptyGraph` produces. -/
def danglingResult : GraphState :=
  { nodes :=
      [{ label := "Class", id := "M/A",
         props := [("id", PropVal.s "M/A"), ("name", PropVal.s "A"),
                   ("aotPath", PropVal.s "A"), ("model", PropVal.s "M"),
                   ("baseClass", PropVal.s "Ghost")] },
       { label := "Model", id := "M",
         props := [("id", PropVal.s "M"), ("name", PropVal.s "M")] }],
    rels :=
      [{ startLabel := "Class", startId := "M/A",
         relType := "BELONGS_TO_MODEL", endLabel := "Model", endId := "M" }] }

/-- The error message of a failed computation, if any. -/
def errOf {α : Type} (x : Except String α) : Option String :=
  match x with
  | Except.error e => some e
  | Except.ok _ => none

/-- Does the lookup of parsed tables accept the (table, field) pair —
i.e. is the first identifier a table of the batch and the second a
field declared on it? -/
def acceptedPair (lookup : List (String × List String)) (t f : String) :
    Bool :=
  match dictGet lookup t with
  | none => false
  | some fields => fields.contains f

/-- The record `_extract_field_accesses` appends for an accepted match. -/
def faOf (src model : String) (p : String × String) : FieldAccessIR :=
  { table_name := p.1, field_name := p.2, model := model,
    access_type :=
      if is_write src p.1 p.2 then FieldAccessType.WRITE
      else FieldAccessType.READ }

/-- Join a non-head list with a leading separator before every element. -/
def joinTail (sep : String) : List String → String
  | [] => ""
  | a :: as => sep ++ a ++ joinTail sep as

/-! ## Claims C1, C2, C3: the three bugs, evaluated at their failing
inputs -/

/-- C1.  Forward-reference safety fails on the code: in the batch
`[A extends B, B]` (with `B` after `A` in input order), `sync_ir`
produces **zero** EXTENDS edges ending at `B`, because `_upsert_class`
merges the EXTENDS edge during its own (phase-1) upsert of `A`, before
`B`'s node has been created, and the `MATCH`-guarded relationship merge
silently does nothing; the phase that runs after all node upserts
(`_upsert_method_relationships`) never retries EXTENDS.  The run itself
succeeds: the final state has `A`'s and `B`'s class nodes and the model
node (3 nodes) but no EXTENDS relationship. -/
theorem C1_forward_reference_extends_dropped :
    (sync_ir [clsA, clsB] [] emptyGraph).toOption.map
      (fun s => (relCountTo s REL_EXTENDS clsB.element_id, s.nodes.length)) =
      some (0, 3) := by
  decide

/-- C2.  Idempotence fails on the code: re-running `sync_ir` on the
forward-reference batch `[A extends B, B]` over the state the first run
left behind creates an **additional** relationship (the EXTENDS edge
that the first run dropped, which now finds `B`'s node): counts go from
3 nodes / 2 relationships after the first run to 3 nodes /
3 relationships after the second. -/
theorem C2_second_sync_adds_relationship :
    ((sync_ir [clsA, clsB] [] emptyGraph).bind (fun s1 =>
      (sync_ir [clsA, clsB] [] s1).map (fun s2 =>
        (s1.nodes.length, s1.rels.length, s2.nodes.length, s2.rels.length)))).toOption
      = some (3, 2, 3, 3) := by
  decide

/-- C3.  Parsing is not total: on a well-formed document whose root is a
class element with a `Name` attribute, `AOTParser.parse` raises
`TypeError`, because `_parse_class` calls
`ClassIR(..., is_placeholder=...)` while the `ClassIR` dataclass in
`src/ir/models.py` declares no `is_placeholder` field (the same holds
for `_parse_table`/`TableIR` and `_parse_field`/`FieldIR`). -/
theorem C3_parse_raises_on_class_document :
    errOf (parse 100 (fun _ => 0) [("doc.xml", docClassA)]) =
      some
        "TypeError: ClassIR got an unexpected keyword argument is_placeholder" := by
  decide

/-! ## Field-access extraction lemmas (claims C4 and C7) -/

/-- A left fold whose step appends the optional image of each element is
the filter-map. -/
theorem foldl_step_filterMap {α β : Type} (f : List β → α → List β)
    (g : α → Option β) (hf : ∀ acc p, f acc p = acc ++ (g p).toList) :
    ∀ (l : List α) (acc : List β), l.foldl f acc = acc ++ l.filterMap g := by
  intro l
  induction l with
  | nil => intro acc; simp
  | cons p l ih =>
    intro acc
    rw [List.foldl_cons, hf, List.filterMap_cons, ih]
    cases hg : g p <;> simp [hg]

/-- The append-loop of `_extract_field_accesses` is the filter-map of the
acceptance test over the match list. -/
theorem extract_field_accesses_eq (src model : String)
    (lookup : List (String × List String)) :
    extract_field_accesses (some src) model lookup
      = (fieldMatches src).filterMap (fun p =>
          if acceptedPair lookup p.1 p.2 then some (faOf src model p)
          else none) := by
  have hbody : ∀ (acc : List FieldAccessIR) (p : String × String),
      (match dictGet lookup p.1 with
        | none => acc
        | some fields =>
          if fields.contains p.2 then
            acc ++
              [{ table_name := p.1, field_name := p.2, model := model,
                 access_type :=
                   if is_write src p.1 p.2 then FieldAccessType.WRITE
                   else FieldAccessType.READ }]
          else acc)
        = acc ++ (if acceptedPair lookup p.1 p.2 then
            some (faOf src model p) else none).toList := by
    intro acc p
    unfold acceptedPair
    cases dictGet lookup p.1 with
    | none => simp
    | some fields => by_cases h : p.2 ∈ fields <;> simp [h, faOf]
  have h := foldl_step_filterMap
    (fun accesses (p : String × String) =>
      match dictGet lookup p.1 with
      | none => accesses
      | some fields =>
        if fields.contains p.2 then
          accesses ++
            [{ table_name := p.1, field_name := p.2, model := model,
               access_type :=
                 if is_write src p.1 p.2 then FieldAccessType.WRITE
                 else FieldAccessType.READ }]
        else accesses)
    (fun p => if acceptedPair lookup p.1 p.2 then some (faOf src model p)
      else none)
    hbody (fieldMatches src) []
  simpa [extract_field_accesses] using h

/-- Count of accepted-pair records produced for one (table, field) pair
over an arbitrary match list. -/
theorem filterMap_pair_count (src model : String)
    (lookup : List (String × List String)) (t f : String) :
    ∀ l : List (String × String),
    ((l.filterMap (fun p =>
        if acceptedPair lookup p.1 p.2 then some (faOf src model p)
        else none)).filter
      (fun r => r.table_name == t && r.field_name == f)).length
      = if acceptedPair lookup t f then
          (l.filter (fun p => p.1 == t && p.2 == f)).length
        else 0 := by
  intro l
  induction l with
  | nil => simp
  | cons p l ih =>
    simp only [List.filterMap_cons]
    cases hacc : acceptedPair lookup p.1 p.2 with
    | false =>
      cases hpt : (p.1 == t && p.2 == f) with
      | false => simpa [hpt] using ih
      | true =>
        have h1 : p.1 = t := by
          have := (Bool.and_eq_true _ _).mp hpt
          exact beq_iff_eq.mp this.1
        have h2 : p.2 = f := by
          have := (Bool.and_eq_true _ _).mp hpt
          exact beq_iff_eq.mp this.2
        subst h1; subst h2
        simp [hpt, hacc, ih]
    | true =>
      cases hpt : (p.1 == t && p.2 == f) with
      | false =>
        have hfo : ((faOf src model p).table_name == t &&
            (faOf src model p).field_name == f) = false := by
          simpa [faOf] using hpt
        simp [hfo, hpt, hacc, ih]
      | true =>
        have h1 : p.1 = t := by
          have := (Bool.and_eq_true _ _).mp hpt
          exact beq_iff_eq.mp this.1
        have h2 : p.2 = f := by
          have := (Bool.and_eq_true _ _).mp hpt
          exact beq_iff_eq.mp this.2
        subst h1; subst h2
        have hfo : ((faOf src model p).table_name == p.1 &&
            (faOf src model p).field_name == p.2) = true := by
          simp [faOf]
        simp [hfo, hpt, hacc, ih]

/-- C4 (counterexample to the claim as stated).  For the §8 body, which
contains two textual occurrences of `CustTable.Blocked`, the analyzer
produces **two** FieldAccess records for that single (table, field)
pair, not at most one. -/
theorem C4_counterexample_two_records :
    ¬ (((extract_field_accesses (some body8) "ModuleA" lookup8).filter
        (fun r => r.table_name == "CustTable" && r.field_name == "Blocked")).length
      ≤ 1) := by
  decide

/-- C4 (amended).  The analyzer produces one FieldAccess record per
**accepted textual occurrence** of a (table, field) pair — as many
records as occurrences, not at most one — and classifies every record
of a pair identically, by the whole-body `_is_write` test, so when both
read-like and write-like occurrences of a pair exist every record of
that pair reports WRITE. -/
theorem C4_record_per_occurrence_write_dominant :
    ∀ (src model : String) (lookup : List (String × List String))
      (t f : String),
    (((extract_field_accesses (some src) model lookup).filter
        (fun r => r.table_name == t && r.field_name == f)).length
      = if acceptedPair lookup t f then
          ((fieldMatches src).filter (fun p => p.1 == t && p.2 == f)).length
        else 0)
    ∧ ∀ r ∈ extract_field_accesses (some src) model lookup,
        r.access_type =
          (if is_write src r.table_name r.field_name then FieldAccessType.WRITE
           else FieldAccessType.READ) := by
  intro src model lookup t f
  constructor
  · rw [extract_field_accesses_eq]
    exact filterMap_pair_count src model lookup t f (fieldMatches src)
  · intro r hr
    rw [extract_field_accesses_eq] at hr
    rcases List.mem_filterMap.mp hr with ⟨p, _, hp⟩
    by_cases hacc : acceptedPair lookup p.1 p.2 = true
    · rw [if_pos hacc] at hp
      cases hp
      rfl
    · rw [if_neg hacc] at hp
      cases hp

/-- Witness for `C4_record_per_occurrence_write_dominant`: instantiated
at the §8 body, whose two occurrences of `CustTable.Blocked` yield two
records. -/
theorem C4_record_per_occurrence_write_dominant_witness :
    ((extract_field_accesses (some body8) "ModuleA" lookup8).filter
        (fun r => r.table_name == "CustTable" && r.field_name == "Blocked")).length
      = if acceptedPair lookup8 "CustTable" "Blocked" then
          ((fieldMatches body8).filter
            (fun p => p.1 == "CustTable" && p.2 == "Blocked")).length
        else 0 :=
  (C4_record_per_occurrence_write_dominant body8 "ModuleA" lookup8
    "CustTable" "Blocked").1

/-- C7.  A FieldAccess record is produced only for a match of the field
pattern whose first identifier is a table parsed in the batch and whose
second identifier is a field declared on that table; every other match
produces no record (and hence, since the loader derives READS_FIELD /
WRITES_FIELD edges only from these records, no edge).  Concretely, a
body reading `myVar.SomeProp` with no parsed table `myVar` produces no
records at all. -/
theorem C7_field_access_suppression :
    (∀ (src model : String) (lookup : List (String × List String))
      (r : FieldAccessIR), r ∈ extract_field_accesses (some src) model lookup →
        acceptedPair lookup r.table_name r.field_name = true ∧
        (r.table_name, r.field_name) ∈ fieldMatches src)
    ∧ extract_field_accesses (some "myVar.SomeProp") "M"
        [("CustTable", ["Blocked"])] = [] := by
  constructor
  · intro src model lookup r hr
    rw [extract_field_accesses_eq] at hr
    rcases List.mem_filterMap.mp hr with ⟨p, hpmem, hp⟩
    by_cases hacc : acceptedPair lookup p.1 p.2 = true
    · rw [if_pos hacc] at hp
      cases hp
      exact ⟨hacc, hpmem⟩
    · rw [if_neg hacc] at hp
      cases hp
  · decide

/-- Witness for `C7_field_access_suppression`: applied to the first
record the analyzer produces for the §8 body. -/
theorem C7_field_access_suppression_witness :
    acceptedPair lookup8 "CustTable" "Blocked" = true ∧
    (("CustTable", "Blocked") ∈ fieldMatches body8) :=
  C7_field_access_suppression.1 body8 "ModuleA" lookup8
    { table_name := "CustTable", field_name := "Blocked", model := "ModuleA",
      access_type := FieldAccessType.WRITE }
    (by decide)

/-! ## Slash-join lemmas (claims C5, C8, C9) -/

theorem intercalate_go_eq : ∀ (l : List String) (acc : String),
    String.intercalate.go acc "/" l = acc ++ joinTail "/" l := by
  intro l
  induction l with
  | nil => intro acc; simp [String.intercalate.go, joinTail]
  | cons a as ih =>
    intro acc
    simp only [String.intercalate.go, joinTail, ih, String.append_assoc]

theorem joinSlash_cons_eq : ∀ (a : String) (as : List String),
    joinSlash (a :: as) = a ++ joinTail "/" as := by
  intro a as
  induction as generalizing a with
  | nil => simp [joinSlash, joinTail]
  | cons b bs ih => simp [joinSlash, joinTail, ih, String.append_assoc]

/-- `String.intercalate "/"` is the plain recursive slash-join. -/
theorem intercalate_eq_joinSlash : ∀ l : List String,
    String.intercalate "/" l = joinSlash l := by
  intro l
  cases l with
  | nil => rfl
  | cons a as =>
    simp only [String.intercalate, intercalate_go_eq, joinSlash_cons_eq]

/-- The slash-join, seen on character lists. -/
theorem joinSlash_data : ∀ l : List String,
    (joinSlash l).data = charJoin (l.map String.data) := by
  intro l
  induction l with
  | nil => rfl
  | cons s rest ih =>
    cases rest with
    | nil => rfl
    | cons b bs =>
      show (s ++ "/" ++ joinSlash (b :: bs)).data = _
      simp only [String.data_append, ih, List.map_cons, charJoin,
        List.append_assoc, List.singleton_append]

/-- Splitting a concatenation at a slash-free block: when what follows
each block is empty or starts with a slash, both parts agree. -/
theorem append_sep_inj : ∀ (a : List Char), '/' ∉ a → ∀ (b u v : List Char),
    '/' ∉ b → (u = [] ∨ ∃ u', u = '/' :: u') →
    (v = [] ∨ ∃ v', v = '/' :: v') → a ++ u = b ++ v → a = b ∧ u = v := by
  intro a
  induction a with
  | nil =>
    intro _ b u v hb hu _ h
    cases b with
    | nil => exact ⟨rfl, by simpa using h⟩
    | cons c b' =>
      rcases hu with rfl | ⟨u', rfl⟩
      · simp at h
      · exfalso
        simp only [List.nil_append, List.cons_append, List.cons.injEq] at h
        exact hb (h.1 ▸ List.mem_cons_self c b')
  | cons c a' ih =>
    intro ha b u v hb hu hv h
    cases b with
    | nil =>
      rcases hv with rfl | ⟨v', rfl⟩
      · simp at h
      · exfalso
        simp only [List.cons_append, List.nil_append, List.cons.injEq] at h
        exact ha (h.1 ▸ List.mem_cons_self c a')
    | cons d b' =>
      simp only [List.cons_append, List.cons.injEq] at h
      obtain ⟨rfl, h2⟩ := h
      have hrest := ih (fun hm => ha (List.mem_cons_of_mem _ hm)) b' u v
        (fun hm => hb (List.mem_cons_of_mem _ hm)) hu hv h2
      exact ⟨by rw [hrest.1], hrest.2⟩

/-- The slash-join of non-empty slash-free blocks is injective. -/
theorem charJoin_inj : ∀ (l1 l2 : List (List Char)),
    (∀ x ∈ l1, x ≠ [] ∧ '/' ∉ x) → (∀ x ∈ l2, x ≠ [] ∧ '/' ∉ x) →
    charJoin l1 = charJoin l2 → l1 = l2 := by
  intro l1
  induction l1 with
  | nil =>
    intro l2 _ h2 h
    cases l2 with
    | nil => rfl
    | cons y ys =>
      exfalso
      have hy := h2 y (List.mem_cons_self _ _)
      cases ys with
      | nil => exact hy.1 (by simpa [charJoin] using h.symm)
      | cons z zs =>
        simp only [charJoin] at h
        rcases List.append_eq_nil.mp h.symm with ⟨hy0, _⟩
        exact hy.1 hy0
  | cons x xs ih =>
    intro l2 h1 h2 h
    have hx := h1 x (List.mem_cons_self _ _)
    cases l2 with
    | nil =>
      exfalso
      cases xs with
      | nil => exact hx.1 (by simpa [charJoin] using h)
      | cons z zs =>
        simp only [charJoin] at h
        rcases List.append_eq_nil.mp h with ⟨hx0, _⟩
        exact hx.1 hx0
    | cons y ys =>
      have hy := h2 y (List.mem_cons_self _ _)
      cases xs with
      | nil =>
        cases ys with
        | nil => simpa [charJoin] using h
        | cons z zs =>
          have hsplit := append_sep_inj x hx.2 y [] ('/' :: charJoin (z :: zs))
            hy.2 (Or.inl rfl) (Or.inr ⟨_, rfl⟩) (by simpa [charJoin] using h)
          exact absurd hsplit.2.symm (by simp)
      | cons x2 xs2 =>
        cases ys with
        | nil =>
          have hsplit := append_sep_inj x hx.2 y ('/' :: charJoin (x2 :: xs2))
            [] hy.2 (Or.inr ⟨_, rfl⟩) (Or.inl rfl) (by simpa [charJoin] using h)
          exact absurd hsplit.2 (by simp)
        | cons y2 ys2 =>
          have hsplit := append_sep_inj x hx.2 y ('/' :: charJoin (x2 :: xs2))
            ('/' :: charJoin (y2 :: ys2)) hy.2 (Or.inr ⟨_, rfl⟩)
            (Or.inr ⟨_, rfl⟩) (by simpa [charJoin] using h)
          have htail : charJoin (x2 :: xs2) = charJoin (y2 :: ys2) := by
            have := hsplit.2
            simpa using this
          have hxs := ih (y2 :: ys2)
            (fun s hs => h1 s (List.mem_cons_of_mem _ hs))
            (fun s hs => h2 s (List.mem_cons_of_mem _ hs)) htail
          rw [hsplit.1, hxs]

/-- Mapping `String.data` over a list is injective. -/
theorem map_data_inj : ∀ (l1 l2 : List String),
    l1.map String.data = l2.map String.data → l1 = l2 := by
  intro l1
  induction l1 with
  | nil => intro l2 h; cases l2 with
    | nil => rfl
    | cons t l2' => simp at h
  | cons s l ih =>
    intro l2 h
    cases l2 with
    | nil => simp at h
    | cons t l2' =>
      simp only [List.map_cons, List.cons.injEq] at h
      rw [String.ext h.1, ih l2' h.2]

/-- A clean name has non-empty, slash-free character data. -/
theorem cleanName_data (s : String) (h : CleanName s) :
    s.data ≠ [] ∧ '/' ∉ s.data := by
  refine ⟨fun hd => h.1 (String.ext (by simpa using hd)), h.2.2⟩

/-- On clean segments the filter-then-strip loop of `parse_element_id`
is the identity. -/
theorem clean_segments_id : ∀ (segs : List String),
    (∀ s ∈ segs, CleanName s) →
    (segs.filter (fun s => s != "")).map pyStrip = segs := by
  intro segs
  induction segs with
  | nil => intro _; rfl
  | cons s rest ih =>
    intro h
    have hs := h s (List.mem_cons_self _ _)
    have hne : (s != "") = true := by simpa using hs.1
    simp only [List.filter_cons, hne, if_pos, List.map_cons, hs.2.1,
      ih (fun x hx => h x (List.mem_cons_of_mem _ hx))]

/-- On clean inputs `parse_element_id` is the plain slash-join. -/
theorem parse_element_id_clean (m : String) (segs : List String)
    (hm : CleanName m) (hs : ∀ s ∈ segs, CleanName s) :
    parse_element_id m segs = joinSlash (m :: segs) := by
  unfold parse_element_id
  rw [clean_segments_id segs hs, hm.2.1, intercalate_eq_joinSlash]

/-- C5 (amended).  Identifier composition is injective on clean names —
names that are non-empty, trimmed and contain no slash: identical
(model, segment-path) combinations give identical IDs and distinct
combinations give distinct IDs; in particular, two classes with the
same clean name but different clean models always receive distinct
canonical IDs.  (Without the cleanliness restriction the claim fails:
see the counterexample, where a slash inside a name lets two distinct
combinations collide.) -/
theorem C5_clean_identifier_injective :
    (∀ (m₁ m₂ : String) (segs₁ segs₂ : List String),
      CleanName m₁ → CleanName m₂ → (∀ s ∈ segs₁, CleanName s) →
      (∀ s ∈ segs₂, CleanName s) →
      (parse_element_id m₁ segs₁ = parse_element_id m₂ segs₂ ↔
        (m₁ = m₂ ∧ segs₁ = segs₂)))
    ∧ (∀ c₁ c₂ : ClassIR, CleanName c₁.model → CleanName c₂.model →
        CleanName c₁.name → CleanName c₂.name → c₁.name = c₂.name →
        c₁.model ≠ c₂.model → c₁.element_id ≠ c₂.element_id) := by
  have main : ∀ (m₁ m₂ : String) (segs₁ segs₂ : List String),
      CleanName m₁ → CleanName m₂ → (∀ s ∈ segs₁, CleanName s) →
      (∀ s ∈ segs₂, CleanName s) →
      (parse_element_id m₁ segs₁ = parse_element_id m₂ segs₂ ↔
        (m₁ = m₂ ∧ segs₁ = segs₂)) := by
    intro m₁ m₂ segs₁ segs₂ hm₁ hm₂ hs₁ hs₂
    constructor
    · intro h
      rw [parse_element_id_clean m₁ segs₁ hm₁ hs₁,
        parse_element_id_clean m₂ segs₂ hm₂ hs₂] at h
      have hd : charJoin ((m₁ :: segs₁).map String.data)
          = charJoin ((m₂ :: segs₂).map String.data) := by
        rw [← joinSlash_data, ← joinSlash_data, h]
      have hcond : ∀ (m : String) (segs : List String), CleanName m →
          (∀ s ∈ segs, CleanName s) →
          ∀ x ∈ (m :: segs).map String.data, x ≠ [] ∧ '/' ∉ x := by
        intro m segs hm hs x hx
        rcases List.mem_map.mp hx with ⟨s, hsmem, rfl⟩
        rcases List.mem_cons.mp hsmem with rfl | hsmem
        · exact cleanName_data s hm
        · exact cleanName_data s (hs s hsmem)
      have hlists := charJoin_inj _ _ (hcond m₁ segs₁ hm₁ hs₁)
        (hcond m₂ segs₂ hm₂ hs₂) hd
      have := map_data_inj _ _ hlists
      injection this with h1 h2
      exact ⟨h1, h2⟩
    · rintro ⟨rfl, rfl⟩; rfl
  refine ⟨main, ?_⟩
  intro c₁ c₂ hm₁ hm₂ hn₁ hn₂ hnames hmodels heq
  have := (main c₁.model c₂.model [c₁.name] [c₂.name] hm₁ hm₂
    (by intro s hs; rcases List.mem_singleton.mp hs with rfl; exact hn₁)
    (by intro s hs; rcases List.mem_singleton.mp hs with rfl; exact hn₂)).mp heq
  exact hmodels this.1

/-- C5 (counterexample to the claim as stated).  Two distinct
(model, segment-path) combinations — model `M` with segment `x/y`
versus model `M/x` with segment `y` — produce the same canonical
identifier, because segments are joined with `/` without any escaping. -/
theorem C5_counterexample_slash_collision :
    parse_element_id "M" ["x/y"] = parse_element_id "M/x" ["y"] ∧
    ¬ (("M" : String) = "M/x" ∧ (["x/y"] : List String) = ["y"]) := by
  exact ⟨by decide, by decide⟩

/-- Witness for `C5_clean_identifier_injective`: two concrete classes
with the same name in different models have distinct IDs. -/
theorem C5_clean_identifier_injective_witness :
    ({ name := "CustomerValidator", aot_path := "p1", model := "ModuleA" }
        : ClassIR).element_id ≠
    ({ name := "CustomerValidator", aot_path := "p2", model := "ModuleB" }
        : ClassIR).element_id :=
  C5_clean_identifier_injective.2
    { name := "CustomerValidator", aot_path := "p1", model := "ModuleA" }
    { name := "CustomerValidator", aot_path := "p2", model := "ModuleB" }
    (by decide) (by decide) (by decide) (by decide) (by decide) (by decide)

/-- C8 (counterexample to the claim as stated).  A whitespace-only
segment is truthy before stripping, so the code keeps it and strips it
to an **empty segment that is not omitted**: `make_id("M", " ")`
returns `"M/"`, while the claimed trim-then-omit composition returns
`"M"`. -/
theorem C8_counterexample_whitespace_segment :
    parse_element_id "M" [" "] = "M/" ∧ claimed_make_id "M" [" "] = "M" ∧
    parse_element_id "M" [" "] ≠ claimed_make_id "M" [" "] := by
  refine ⟨by decide, by decide, by decide⟩

/-- A helper: with no whitespace-only non-empty segments, filtering
before stripping agrees with stripping before filtering. -/
theorem filter_strip_comm : ∀ (segs : List String),
    (∀ s ∈ segs, pyStrip s = "" → s = "") →
    (segs.filter (fun s => s != "")).map pyStrip
      = (segs.map pyStrip).filter (fun s => s != "") := by
  intro segs
  induction segs with
  | nil => intro _; rfl
  | cons s rest ih =>
    intro h
    have hrest := ih (fun x hx => h x (List.mem_cons_of_mem _ hx))
    by_cases hs : s = ""
    · subst hs
      have : pyStrip "" = "" := rfl
      simp [this, hrest]
    · have hps : pyStrip s ≠ "" := fun hp => hs (h s (List.mem_cons_self _ _) hp)
      simp [hs, hps, hrest]

/-- C8 (amended).  `make_id` is the slash-join of the stripped model and
the stripped segments **that were non-empty before stripping** (the
code filters on the raw segment, then strips, so whitespace-only
segments survive as empty segments); it agrees with the claimed
trim-then-omit composition exactly when no segment is whitespace-only.
The function is pure and total — it is defined for every input and
never fails. -/
theorem C8_make_id_composition :
    (∀ (m : String) (segs : List String),
      parse_element_id m segs =
        joinSlash (pyStrip m :: (segs.filter (fun s => s != "")).map pyStrip))
    ∧ (∀ (m : String) (segs : List String),
        (∀ s ∈ segs, pyStrip s = "" → s = "") →
        parse_element_id m segs = claimed_make_id m segs) := by
  constructor
  · intro m segs
    unfold parse_element_id
    rw [intercalate_eq_joinSlash]
  · intro m segs h
    unfold parse_element_id claimed_make_id
    rw [filter_strip_comm segs h]

/-- Witness for `C8_make_id_composition`: instantiated at a model and a
plain segment. -/
theorem C8_make_id_composition_witness :
    parse_element_id "ModuleA" ["CustTable"] =
      claimed_make_id "ModuleA" ["CustTable"] :=
  (C8_make_id_composition).2 "ModuleA" ["CustTable"] (by decide)

/-! ## Call extraction (claim C9) -/

/-- The seen-set/results loop of `_extract_called_methods` computes the
order-preserving first-occurrence deduplication. -/
theorem foldl_seen_dedup (mk : String × String → String) :
    ∀ (l : List (String × String)) (seen out : List String),
    (l.foldl (fun (acc : List String × List String) p =>
        if mk p ∈ acc.1 then acc else (mk p :: acc.1, acc.2 ++ [mk p]))
      (seen, out)).2
      = out ++ dedupFirstFrom seen (l.map mk) := by
  intro l
  induction l with
  | nil => intro seen out; simp [dedupFirstFrom]
  | cons p l ih =>
    intro seen out
    simp only [List.foldl_cons, List.map_cons, dedupFirstFrom]
    by_cases h : mk p ∈ seen <;> simp [h, ih, List.append_assoc]

/-- C9.  Call extraction maps every `Identifier::Identifier` match to
`parse_element_id(model, class, method)` — the calling method's own
model — and deduplicates by resulting ID while keeping first-occurrence
order; on clean identifier tokens the resulting ID is literally
`{model}/{Class}/{method}`; and a body containing
`BaseValidator::log();` yields exactly the single target ID
`M/BaseValidator/log`. -/
theorem C9_call_extraction :
    (∀ (src model : String),
      extract_called_methods (some src) model
        = dedupFirstFrom []
            ((callMatches src).map (fun p => parse_element_id model [p.1, p.2])))
    ∧ (∀ (model c m : String), pyStrip model = model → pyStrip c = c →
        pyStrip m = m → c ≠ "" → m ≠ "" →
        parse_element_id model [c, m] = model ++ "/" ++ c ++ "/" ++ m)
    ∧ extract_called_methods (some "BaseValidator::log();") "M"
        = ["M/BaseValidator/log"] := by
  refine ⟨?_, ?_, by decide⟩
  · intro src model
    have h := foldl_seen_dedup
      (fun p => parse_element_id model [p.1, p.2]) (callMatches src) [] []
    simpa [extract_called_methods] using h
  · intro model c m hm hc hmm hcne hmne
    unfold parse_element_id
    have hfilter : ([c, m].filter (fun s => s != "")).map pyStrip = [c, m] := by
      simp [hcne, hmne, hc, hmm]
    rw [hfilter, hm, intercalate_eq_joinSlash]
    simp [joinSlash, String.append_assoc]

/-- Witness for `C9_call_extraction`: the ID form at concrete clean
tokens. -/
theorem C9_call_extraction_witness :
    parse_element_id "M" ["BaseValidator", "log"] =
      "M" ++ "/" ++ "BaseValidator" ++ "/" ++ "log" :=
  C9_call_extraction.2.1 "M" "BaseValidator" "log"
    (by decide) (by decide) (by decide) (by decide) (by decide)

/-! ## Correctness of the write-pattern search (claim C6) -/

theorem matchPat_iff : ∀ (pat l rest : List Char),
    matchPat pat l = some rest ↔ l = pat ++ rest := by
  intro pat
  induction pat with
  | nil => intro l rest; simp [matchPat, eq_comm]
  | cons p ps ih =>
    intro l rest
    cases l with
    | nil => simp [matchPat]
    | cons c cs =>
      simp only [matchPat, List.cons_append, List.cons.injEq]
      by_cases hc : c = p
      · simp [hc, ih]
      · simp [hc, beq_iff_eq]

theorem assignAfter_iff : ∀ r : List Char,
    assignAfter r = true ↔
      ∃ w b, r = w ++ ':' :: '=' :: b ∧ ∀ c ∈ w, pySpace c = true := by
  intro r
  unfold assignAfter
  constructor
  · intro h
    cases hd : r.dropWhile pySpace with
    | nil => rw [hd] at h; simp at h
    | cons c1 rest1 =>
      rw [hd] at h
      cases rest1 with
      | nil => simp at h
      | cons c2 rest2 =>
        simp only [Bool.and_eq_true, beq_iff_eq] at h
        obtain ⟨rfl, rfl⟩ := h
        refine ⟨r.takeWhile pySpace, rest2, ?_,
          fun c hc => List.mem_takeWhile_imp hc⟩
        conv_lhs => rw [← List.takeWhile_append_dropWhile (p := pySpace) (l := r)]
        rw [hd]
  · rintro ⟨w, b, rfl, hw⟩
    rw [List.dropWhile_append_of_pos hw, List.dropWhile_cons]
    have hcolon : pySpace ':' = false := by decide
    rw [hcolon]
    simp

theorem writeSearch_aux (pat : List Char) : ∀ L : List Char,
    writeSearch pat L = true ↔
      ∃ a rest, L = a ++ pat ++ rest ∧ assignAfter rest = true := by
  intro L
  induction L with
  | nil =>
    constructor
    · intro h; exact absurd h (by simp [writeSearch])
    · rintro ⟨a, rest, h, hassign⟩
      rcases List.append_eq_nil.mp h.symm with ⟨h1, rfl⟩
      rcases List.append_eq_nil.mp h1 with ⟨rfl, rfl⟩
      exact absurd hassign (by decide)
  | cons c cs ih =>
    simp only [writeSearch, Bool.or_eq_true]
    constructor
    · rintro (h | h)
      · cases hm : matchPat pat (c :: cs) with
        | none => rw [hm] at h; simp at h
        | some rest =>
          rw [hm] at h
          exact ⟨[], rest, by simpa using (matchPat_iff pat (c :: cs) rest).mp hm,
            h⟩
      · rcases ih.mp h with ⟨a, rest, heq, hassign⟩
        exact ⟨c :: a, rest, by simp [heq], hassign⟩
    · rintro ⟨a, rest, heq, hassign⟩
      cases a with
      | nil =>
        left
        have hm : matchPat pat (c :: cs) = some rest :=
          (matchPat_iff pat (c :: cs) rest).mpr (by simpa using heq)
        rw [hm]
        exact hassign
      | cons a0 a' =>
        right
        apply ih.mpr
        simp only [List.cons_append, List.cons.injEq] at heq
        exact ⟨a', rest, heq.2, hassign⟩

/-- The search for `pat` followed by `\s*:=` succeeds exactly when the
text decomposes as `a ++ pat ++ whitespace ++ ":=" ++ b`. -/
theorem writeSearch_spec (pat L : List Char) :
    writeSearch pat L = true ↔
      ∃ a w b, L = a ++ pat ++ w ++ ':' :: '=' :: b ∧
        ∀ c ∈ w, pySpace c = true := by
  rw [writeSearch_aux]
  constructor
  · rintro ⟨a, rest, heq, hassign⟩
    rcases (assignAfter_iff rest).mp hassign with ⟨w, b, rfl, hw⟩
    exact ⟨a, w, b, by simp [heq, List.append_assoc], hw⟩
  · rintro ⟨a, w, b, heq, hw⟩
    refine ⟨a, w ++ ':' :: '=' :: b, by simp [heq, List.append_assoc], ?_⟩
    exact (assignAfter_iff _).mpr ⟨w, b, rfl, hw⟩

/-- `_is_write` decides exactly the declarative case-insensitive
occurrence-with-assignment predicate. -/
theorem is_write_iff (src t f : String) :
    is_write src t f = true ↔ CIWrite src t f := by
  unfold is_write CIWrite
  rw [writeSearch_spec]
  constructor
  · rintro ⟨a, w, b, heq, hw⟩
    exact ⟨a, w, b, by simpa [List.append_assoc] using heq, hw⟩
  · rintro ⟨a, w, b, heq, hw⟩
    exact ⟨a, w, b, by simpa [List.append_assoc] using heq, hw⟩

/-- The claimed exact-text write predicate is decided by the same search
run without lowercasing. -/
theorem exactWrite_iff (src t f : String) :
    ExactWrite src t f ↔
      writeSearch (t.data ++ '.' :: f.data) src.data = true := by
  unfold ExactWrite
  rw [writeSearch_spec]
  constructor
  · rintro ⟨a, w, b, heq, hw⟩
    exact ⟨a, w, b, by simpa [List.append_assoc] using heq, hw⟩
  · rintro ⟨a, w, b, heq, hw⟩
    exact ⟨a, w, b, by simpa [List.append_assoc] using heq, hw⟩

/-- C6 (counterexample to the claim as stated).  `_is_write` matches
case-insensitively, not against the exact `table.field` text: in a body
whose only exact-text occurrence of `CustTable.Blocked` is a bare read
but which assigns to `custtable.blocked`, the analyzer classifies the
pair WRITE although no occurrence of the exact text is followed by an
assignment token. -/
theorem C6_counterexample_case_insensitive :
    extract_field_accesses (some bodyCI) "M" lookup8
      = [{ table_name := "CustTable", field_name := "Blocked", model := "M",
           access_type := FieldAccessType.WRITE }]
    ∧ ¬ ExactWrite bodyCI "CustTable" "Blocked" := by
  constructor
  · decide
  · intro h
    exact absurd ((exactWrite_iff bodyCI "CustTable" "Blocked").mp h)
      (by decide)

/-- C6 (amended).  The access of every produced record is classified for
the whole body: WRITE exactly when some occurrence of the
`table.field` text, **matched case-insensitively**, is followed by
optional whitespace and `:=`, and READ otherwise; and for the §8
example batch the synchronized graph contains exactly one WRITES_FIELD
edge to `ModuleA/CustTable/Blocked` and zero READS_FIELD edges to it. -/
theorem C6_write_dominance_case_insensitive :
    (∀ (src model : String) (lookup : List (String × List String))
        (r : FieldAccessIR),
      r ∈ extract_field_accesses (some src) model lookup →
      (r.access_type = FieldAccessType.WRITE ↔
        CIWrite src r.table_name r.field_name))
    ∧ (sync_ir [cls8] [tbl8] emptyGraph).toOption.map
        (fun s => (relCountTo s REL_WRITES_FIELD fld8Id,
                   relCountTo s REL_READS_FIELD fld8Id)) = some (1, 0) := by
  constructor
  · intro src model lookup r hr
    rw [extract_field_accesses_eq] at hr
    rcases List.mem_filterMap.mp hr with ⟨p, _, hp⟩
    by_cases hacc : acceptedPair lookup p.1 p.2 = true
    · rw [if_pos hacc] at hp
      cases hp
      simp only [faOf]
      by_cases hw : is_write src p.1 p.2 = true
      · simp only [hw, if_true, true_iff]
        exact (is_write_iff src p.1 p.2).mp hw
      · have hw' : is_write src p.1 p.2 = false := by simpa using hw
        simp only [hw', if_false]
        constructor
        · intro hcontra; cases hcontra
        · intro hci; exact absurd ((is_write_iff src p.1 p.2).mpr hci) hw
    · rw [if_neg hacc] at hp
      cases hp
  · decide

/-- Witness for `C6_write_dominance_case_insensitive`: applied to the
record the analyzer produces for the §8 body. -/
theorem C6_write_dominance_case_insensitive_witness :
    FieldAccessType.WRITE = FieldAccessType.WRITE ↔
      CIWrite body8 "CustTable" "Blocked" :=
  C6_write_dominance_case_insensitive.1 body8 "ModuleA" lookup8
    { table_name := "CustTable", field_name := "Blocked", model := "ModuleA",
      access_type := FieldAccessType.WRITE }
    (by decide)

/-! ## Dangling-endpoint invariants (claim C10)

The argument: throughout a sync of a batch none of whose classes has the
canonical ID `bid` (and over a store with no Class node `bid`), no Class
node keyed `bid` ever exists — class-node merges use the batch's own
IDs and every other merge uses a non-Class label — and since the
relationship merge creates an edge only when its end node exists, no
EXTENDS edge into `bid` is ever added.  The merge itself is a total
function, so the dangling reference never raises. -/

theorem foldlM_inv {α : Type} (f : GraphState → α → Except String GraphState)
    (l : List α) (I : GraphState → Prop)
    (hstep : ∀ s a s', a ∈ l → f s a = Except.ok s' → I s → I s') :
    ∀ s s', l.foldlM f s = Except.ok s' → I s → I s' := by
  induction l with
  | nil =>
    intro s s' h hI
    simp only [List.foldlM, pure] at h
    cases h
    exact hI
  | cons a l ih =>
    intro s s' h hI
    simp only [List.foldlM] at h
    cases hf : f s a with
    | error e => rw [hf] at h; exact Except.noConfusion h
    | ok s1 =>
      rw [hf] at h
      have h' : l.foldlM f s1 = Except.ok s' := h
      exact ih (fun s a' s'' ha => hstep s a' s'' (List.mem_cons_of_mem _ ha))
        s1 s' h' (hstep s a s1 (List.mem_cons_self _ _) hf hI)

theorem foldl_inv {α : Type} (f : GraphState → α → GraphState) (l : List α)
    (I : GraphState → Prop) (hstep : ∀ s a, a ∈ l → I s → I (f s a)) :
    ∀ s, I s → I (l.foldl f s) := by
  induction l with
  | nil => intro s hI; exact hI
  | cons a l ih =>
    intro s hI
    exact ih (fun s' a' ha => hstep s' a' (List.mem_cons_of_mem _ ha))
      (f s a) (hstep s a (List.mem_cons_self _ _) hI)

theorem except_ok_bind {ε α β : Type} (a : α) (f : α → Except ε β) :
    (Except.ok a >>= f) = f a := rfl

theorem except_pure_eq {ε α : Type} (a : α) :
    (pure a : Except ε α) = Except.ok a := rfl

theorem merge_relationship_inv (bid : String) (base : List GraphRel)
    (s : GraphState) (sl si rt el ei : String) (hI : SyncInv bid base s) :
    SyncInv bid base (merge_relationship s sl si rt el ei) := by
  unfold merge_relationship
  dsimp only
  split
  case isTrue hpres =>
    split
    case isTrue => exact hI
    case isFalse =>
      refine ⟨hI.1, ?_⟩
      show (s.rels ++ [_]).filter (extendsToBid bid) = base
      rw [List.filter_append]
      have hr : extendsToBid bid
          { startLabel := sl, startId := si, relType := rt,
            endLabel := el, endId := ei } = false := by
        cases hx : extendsToBid bid
            { startLabel := sl, startId := si, relType := rt,
              endLabel := el, endId := ei } with
        | false => rfl
        | true =>
          exfalso
          unfold extendsToBid at hx
          simp only [Bool.and_eq_true, beq_iff_eq] at hx
          obtain ⟨⟨hrt, hel⟩, hei⟩ := hx
          have hend : nodeKeyPresent s el ei = true :=
            (Bool.and_eq_true _ _).mp hpres |>.2
          unfold nodeKeyPresent at hend
          rcases List.any_eq_true.mp hend with ⟨n, hn, hnb⟩
          simp only [Bool.and_eq_true, beq_iff_eq] at hnb
          exact hI.1 n hn ⟨hnb.1.trans hel, hnb.2.trans hei⟩
      simp [hr, hI.2]
  case isFalse => exact hI

theorem merge_node_inv (bid : String) (base : List GraphRel)
    (s s' : GraphState) (label : String) (props : Props)
    (h : merge_node s label props = Except.ok s')
    (hnew : ∀ nodeId, propsLookup props "id" = some (PropVal.s nodeId) →
      ¬(label = NODE_CLASS ∧ nodeId = bid))
    (hI : SyncInv bid base s) : SyncInv bid base s' := by
  unfold merge_node at h
  split at h
  case h_2 => exact Except.noConfusion h
  case h_1 nodeId hlook =>
    split at h
    · exact Except.noConfusion h
    · split at h
      · simp only [Except.ok.injEq] at h
        subst h
        refine ⟨?_, hI.2⟩
        intro n hn
        rcases List.mem_map.mp hn with ⟨n0, hn0, rfl⟩
        by_cases hcond : (n0.label == label && n0.id == nodeId) = true
        · rw [if_pos hcond]
          exact hI.1 n0 hn0
        · rw [if_neg hcond]
          exact hI.1 n0 hn0
      · simp only [Except.ok.injEq] at h
        subst h
        refine ⟨?_, hI.2⟩
        intro n hn
        rcases List.mem_append.mp hn with hn | hn
        · exact hI.1 n hn
        · rcases List.mem_singleton.mp hn with rfl
          exact hnew nodeId hlook

theorem merge_model_relations_inv (bid : String) (base : List GraphRel)
    (s s' : GraphState) (nl ni mn : String) (pn : Option String)
    (h : merge_model_relations s nl ni mn pn = Except.ok s')
    (hI : SyncInv bid base s) : SyncInv bid base s' := by
  unfold merge_model_relations at h
  cases hm : merge_node s NODE_MODEL
      [("id", PropVal.s mn), ("name", PropVal.s mn)] with
  | error e => rw [hm] at h; exact Except.noConfusion h
  | ok s1 =>
    simp only [hm, except_ok_bind] at h
    have hI1 : SyncInv bid base s1 := by
      refine merge_node_inv bid base s s1 NODE_MODEL _ hm ?_ hI
      intro nodeId _
      rintro ⟨hlbl, _⟩
      exact absurd hlbl (by decide)
    have hI2 : SyncInv bid base
        (merge_relationship s1 nl ni REL_BELONGS_TO_MODEL NODE_MODEL mn) :=
      merge_relationship_inv bid base s1 _ _ _ _ _ hI1
    cases ht : truthy? pn with
    | none =>
      simp only [ht, except_pure_eq, Except.ok.injEq] at h
      exact h ▸ hI2
    | some p =>
      simp only [ht] at h
      cases hp : merge_node
          (merge_relationship s1 nl ni REL_BELONGS_TO_MODEL NODE_MODEL mn)
          NODE_PACKAGE [("id", PropVal.s p), ("name", PropVal.s p)] with
      | error e => rw [hp] at h; exact Except.noConfusion h
      | ok s3 =>
        simp only [hp, except_ok_bind, except_pure_eq, Except.ok.injEq] at h
        have hI3 : SyncInv bid base s3 := by
          refine merge_node_inv bid base _ s3 NODE_PACKAGE _ hp ?_ hI2
          intro nodeId _
          rintro ⟨hlbl, _⟩
          exact absurd hlbl (by decide)
        exact h ▸ merge_relationship_inv bid base s3 _ _ _ _ _ hI3

theorem upsert_method_inv (bid : String) (base : List GraphRel)
    (s s' : GraphState) (m : MethodIR)
    (h : upsert_method s m = Except.ok s')
    (hI : SyncInv bid base s) : SyncInv bid base s' := by
  refine merge_node_inv bid base s s' NODE_METHOD _ h ?_ hI
  intro nodeId _
  rintro ⟨hlbl, _⟩
  exact absurd hlbl (by decide)

theorem propsLookup_classProps (c : ClassIR) :
    propsLookup (classProps c) "id" = some (PropVal.s c.element_id) := rfl

theorem upsert_class_inv (bid : String) (base : List GraphRel)
    (s s' : GraphState) (c : ClassIR)
    (h : upsert_class s c = Except.ok s')
    (hbid : c.element_id ≠ bid)
    (hI : SyncInv bid base s) : SyncInv bid base s' := by
  unfold upsert_class at h
  cases hm : merge_node s NODE_CLASS (classProps c) with
  | error e => rw [hm] at h; exact Except.noConfusion h
  | ok s1 =>
    simp only [hm, except_ok_bind] at h
    have hI1 : SyncInv bid base s1 := by
      refine merge_node_inv bid base s s1 NODE_CLASS _ hm ?_ hI
      intro nodeId hlook
      rw [propsLookup_classProps] at hlook
      rintro ⟨_, hid⟩
      cases hlook
      exact hbid hid
    cases hmr : merge_model_relations s1 NODE_CLASS c.element_id c.model
        c.package with
    | error e => rw [hmr] at h; exact Except.noConfusion h
    | ok s2 =>
      simp only [hmr, except_ok_bind] at h
      have hI2 : SyncInv bid base s2 :=
        merge_model_relations_inv bid base s1 s2 _ _ _ _ hmr hI1
      cases hfold : c.methods.foldlM (fun st nm => do
          let st ← upsert_method st nm.2
          pure (merge_relationship st NODE_CLASS c.element_id
            REL_DECLARES_METHOD NODE_METHOD nm.2.element_id)) s2 with
      | error e => rw [hfold] at h; exact Except.noConfusion h
      | ok s3 =>
        simp only [hfold, except_ok_bind] at h
        have hI3 : SyncInv bid base s3 := by
          refine foldlM_inv _ _ (SyncInv bid base) ?_ s2 s3 hfold hI2
          intro st nm st' _ hstep hIst
          cases hu : upsert_method st nm.2 with
          | error e => rw [hu] at hstep; exact Except.noConfusion hstep
          | ok st1 =>
            simp only [hu, except_ok_bind, except_pure_eq,
              Except.ok.injEq] at hstep
            exact hstep ▸ merge_relationship_inv bid base st1 _ _ _ _ _
              (upsert_method_inv bid base st st1 nm.2 hu hIst)
        cases ht : truthy? c.base_class with
        | none =>
          simp only [ht, except_pure_eq, Except.ok.injEq] at h
          exact h ▸ hI3
        | some b =>
          simp only [ht] at h
          cases hrel : parse_related_class_id b c.model with
          | none =>
            simp only [hrel, except_pure_eq, Except.ok.injEq] at h
            exact h ▸ hI3
          | some base_id =>
            simp only [hrel] at h
            by_cases hbe : base_id = ""
            · rw [if_pos hbe] at h
              simp only [except_pure_eq, Except.ok.injEq] at h
              exact h ▸ hI3
            · rw [if_neg hbe] at h
              simp only [except_pure_eq, Except.ok.injEq] at h
              exact h ▸ merge_relationship_inv bid base s3 _ _ _ _ _ hI3

theorem upsert_table_inv (bid : String) (base : List GraphRel)
    (s s' : GraphState) (t : TableIR)
    (h : upsert_table s t = Except.ok s')
    (hI : SyncInv bid base s) : SyncInv bid base s' := by
  unfold upsert_table at h
  cases hm : merge_node s NODE_TABLE (tableProps t) with
  | error e => rw [hm] at h; exact Except.noConfusion h
  | ok s1 =>
    simp only [hm, except_ok_bind] at h
    have hI1 : SyncInv bid base s1 := by
      refine merge_node_inv bid base s s1 NODE_TABLE _ hm ?_ hI
      intro nodeId _
      rintro ⟨hlbl, _⟩
      exact absurd hlbl (by decide)
    cases hmr : merge_model_relations s1 NODE_TABLE t.element_id t.model
        t.package with
    | error e => rw [hmr] at h; exact Except.noConfusion h
    | ok s2 =>
      simp only [hmr, except_ok_bind] at h
      have hI2 : SyncInv bid base s2 :=
        merge_model_relations_inv bid base s1 s2 _ _ _ _ hmr hI1
      refine foldlM_inv _ _ (SyncInv bid base) ?_ s2 s' h hI2
      intro st nf st' _ hstep hIst
      cases hf : merge_node st NODE_FIELD (fieldProps nf.2) with
      | error e => rw [hf] at hstep; exact Except.noConfusion hstep
      | ok st1 =>
        simp only [hf, except_ok_bind, except_pure_eq,
          Except.ok.injEq] at hstep
        have hIst1 : SyncInv bid base st1 := by
          refine merge_node_inv bid base st st1 NODE_FIELD _ hf ?_ hIst
          intro nodeId _
          rintro ⟨hlbl, _⟩
          exact absurd hlbl (by decide)
        exact hstep ▸ merge_relationship_inv bid base st1 _ _ _ _ _ hIst1

theorem upsert_method_relationships_inv (bid : String) (base : List GraphRel)
    (s : GraphState) (c : ClassIR) (hI : SyncInv bid base s) :
    SyncInv bid base (upsert_method_relationships s c) := by
  unfold upsert_method_relationships
  refine foldl_inv _ _ (SyncInv bid base) ?_ s hI
  intro st nm _ hIst
  have hcalls : SyncInv bid base
      (nm.2.called_methods.foldl (fun st2 target_method_id =>
        merge_relationship st2 NODE_METHOD nm.2.element_id REL_CALLS
          NODE_METHOD target_method_id) st) := by
    refine foldl_inv _ _ (SyncInv bid base) ?_ st hIst
    intro st2 tid _ hIst2
    exact merge_relationship_inv bid base st2 _ _ _ _ _ hIst2
  refine foldl_inv _ _ (SyncInv bid base) ?_ _ hcalls
  intro st2 access _ hIst2
  exact merge_relationship_inv bid base st2 _ _ _ _ _ hIst2

/-- C10.  For every batch in which some class's base-class reference
resolves to a canonical ID `bid` for which no Class node exists after
the node phase — no class of the batch has ID `bid` and the prior store
has no Class node `bid` — the EXTENDS upsert for that edge has no
effect: the synchronized store contains exactly the EXTENDS edges into
`bid` it started with (zero when the store starts empty), and no error
is raised (the relationship merge is a total function; the run
succeeds, as the witness shows on a concrete dangling batch). -/
theorem C10_dangling_endpoint_no_edge :
    ∀ (classes : List ClassIR) (tables : List TableIR) (s0 s1 : GraphState)
      (c : ClassIR) (b bid : String),
      c ∈ classes → c.base_class = some b →
      parse_related_class_id b c.model = some bid →
      (∀ c' ∈ classes, ClassIR.element_id c' ≠ bid) →
      (∀ n ∈ s0.nodes, ¬(n.label = NODE_CLASS ∧ n.id = bid)) →
      sync_ir classes tables s0 = Except.ok s1 →
      s1.rels.filter (extendsToBid bid) = s0.rels.filter (extendsToBid bid) := by
  intro classes tables s0 s1 c b bid _ _ _ hids hnodes h
  have hI0 : SyncInv bid (s0.rels.filter (extendsToBid bid)) s0 := ⟨hnodes, rfl⟩
  unfold sync_ir at h
  cases h1 : classes.foldlM upsert_class s0 with
  | error e => rw [h1] at h; exact Except.noConfusion h
  | ok sA =>
    simp only [h1, except_ok_bind] at h
    have hIA : SyncInv bid (s0.rels.filter (extendsToBid bid)) sA := by
      refine foldlM_inv _ _ _ ?_ s0 sA h1 hI0
      intro s c' s' hc' hstep hIs
      exact upsert_class_inv bid _ s s' c' hstep (hids c' hc') hIs
    cases h2 : tables.foldlM upsert_table sA with
    | error e => rw [h2] at h; exact Except.noConfusion h
    | ok sB =>
      simp only [h2, except_ok_bind, except_pure_eq, Except.ok.injEq] at h
      have hIB : SyncInv bid (s0.rels.filter (extendsToBid bid)) sB := by
        refine foldlM_inv _ _ _ ?_ sA sB h2 hIA
        intro s t s' _ hstep hIs
        exact upsert_table_inv bid _ s s' t hstep hIs
      have hIC := foldl_inv upsert_method_relationships classes
        (SyncInv bid (s0.rels.filter (extendsToBid bid)))
        (fun s c' _ hIs => upsert_method_relationships_inv bid _ s c' hIs)
        sB hIB
      exact h ▸ hIC.2

/-- Witness for `C10_dangling_endpoint_no_edge`: a concrete batch with a
single class extending the absent `Ghost` synchronizes successfully and
yields a store with no EXTENDS edges. -/
theorem C10_dangling_endpoint_no_edge_witness :
    danglingResult.rels.filter (extendsToBid "M/Ghost")
      = emptyGraph.rels.filter (extendsToBid "M/Ghost") :=
  C10_dangling_endpoint_no_edge [clsDangling] [] emptyGraph danglingResult
    clsDangling "Ghost" "M/Ghost"
    (List.mem_singleton.mpr rfl) rfl (by decide) (by decide) (by decide)
    rfl

end XppGraph
